import Mathlib

/-!
Shallow embedding of the `cap_dcis_resection` repository's core logic:

* `Crane` — the sliding-window text chunker (`cap_dcis_resection/crane.py`,
  class `ContextWindow`).
* `Validator` — the payload validator (`cap_dcis_resection/validator.py`
  together with the dataclasses of `cap_dcis_resection/schemas.py`).
* `Schemas` — the conditional-field validators of the Pydantic models in
  `schemas.py` (`DistanceMM`, `Margins`) and the discriminated-union
  distance variants of `dcis_resection_model.py`.

Python strings are embedded as `List Char`; Python exceptions as
`Except`; Python ints as `Int`/`Nat` (Python ints are unbounded, so no
modular reduction arises); Python floats appear only as nullable numeric
fields whose claims concern presence and sign, so they are embedded as
`ℚ`.
-/

abbrev Str := List Char

/-- Whitespace, as recognized by Python's `str.split()` / `str.strip()`
(restricted to the ASCII whitespace characters; the repository's inputs
are ASCII clinical text). -/
def isSpace (c : Char) : Bool :=
  c == ' ' || c == '\t' || c == '\n' || c == '\r' || c == '\x0b' || c == '\x0c'

/-- Python `text.split()`: split on runs of whitespace, discarding empty
tokens. -/
def splitWords (s : Str) : List Str :=
  match s with
  | [] => []
  | c :: cs =>
    if isSpace c then splitWords cs
    else (c :: cs.takeWhile (fun d => !isSpace d))
           :: splitWords (cs.dropWhile (fun d => !isSpace d))
termination_by s.length
decreasing_by
  · simp_wf
  · simp_wf
    have := (List.dropWhile_sublist (l := cs) (p := fun d => !isSpace d)).length_le
    omega

/-- Python `" ".join(words)`. -/
def joinSpace : List Str → Str
  | [] => []
  | [w] => w
  | w :: ws => w ++ ' ' :: joinSpace ws

/-- Python `s.strip()`: drop whitespace from both ends. -/
def strip (s : Str) : Str :=
  ((s.dropWhile isSpace).reverse.dropWhile isSpace).reverse

namespace Crane

/-- `crane.py` class `ContextWindow`: the configuration stored by
`__init__` after its checks pass (both values are then non-negative, so
they are carried as `Nat`). -/
structure ContextWindow where
  window_size : Nat
  overlap : Nat
deriving DecidableEq, Repr

/-- `ContextWindow.__init__(window_size, overlap)`: the three
construction-time checks, in source order; `Except.error` models the
raised `ValueError`. -/
def ContextWindow.mk? (window_size overlap : Int) : Except Str ContextWindow :=
  if window_size ≤ 0 then .error "window_size must be greater than zero".toList
  else if overlap < 0 then .error "overlap must be zero or positive".toList
  else if overlap ≥ window_size then .error "overlap must be smaller than window_size".toList
  else .ok ⟨window_size.toNat, overlap.toNat⟩

/-- The loop of `ContextWindow._sliding_slices`, with the cursor `start`
explicit: while `start < len(tokens)` yield `tokens[start : start + w]`,
then break if `step ≤ 0` (in `Nat`, `step = 0` exactly when the Python
`step = window_size - overlap` is `≤ 0`), else advance by `step`. -/
def slidingAux (w step : Nat) (tokens : List α) (start : Nat) : List (List α) :=
  if start < tokens.length then
    (tokens.drop start).take w ::
      (if step = 0 then [] else slidingAux w step tokens (start + step))
  else []
termination_by tokens.length - start
decreasing_by simp_wf; omega

/-- `ContextWindow._sliding_slices(tokens)`. -/
def ContextWindow.slidingSlices (cw : ContextWindow) (tokens : List α) : List (List α) :=
  slidingAux cw.window_size (cw.window_size - cw.overlap) tokens 0

/-- `ContextWindow.generate(text)`. -/
def ContextWindow.generate (cw : ContextWindow) (text : Str) : List Str :=
  let tokens := splitWords text
  if tokens = [] then []
  else (cw.slidingSlices tokens).map joinSpace

end Crane

namespace Validator

/-- A Python `datetime.date` value (year, month, day). -/
structure Date where
  year : Nat
  month : Nat
  day : Nat
deriving DecidableEq, Repr

/-- Gregorian leap year, as in `datetime`. -/
def isLeapYear (y : Nat) : Bool :=
  y % 4 == 0 && (y % 100 != 0 || y % 400 == 0)

/-- Days in a month of the proleptic Gregorian calendar. -/
def daysInMonth (y m : Nat) : Nat :=
  if m == 2 then (if isLeapYear y then 29 else 28)
  else if m == 4 || m == 6 || m == 9 || m == 11 then 30
  else 31

/-- The invariant every constructed Python `date` object satisfies. -/
def Date.valid (d : Date) : Prop :=
  1 ≤ d.year ∧ d.year ≤ 9999 ∧ 1 ≤ d.month ∧ d.month ≤ 12 ∧
    1 ≤ d.day ∧ d.day ≤ daysInMonth d.year d.month

instance (d : Date) : Decidable d.valid := by
  unfold Date.valid; infer_instance

/-- One decimal digit character (`n` is already reduced mod 10). -/
def isoDigit (n : Nat) : Char := Nat.digitChar (n % 10)

/-- `date.isoformat()`: `YYYY-MM-DD` (zero-padded; exact for the valid
range `year ≤ 9999`, `month, day ≤ 99`). -/
def Date.isoformat (d : Date) : Str :=
  [isoDigit (d.year / 1000), isoDigit (d.year / 100), isoDigit (d.year / 10),
   isoDigit d.year, '-', isoDigit (d.month / 10), isoDigit d.month, '-',
   isoDigit (d.day / 10), isoDigit d.day]

/-- Decimal digit value of a character, if it is a digit. -/
def digitVal? (c : Char) : Option Nat :=
  if 48 ≤ c.toNat ∧ c.toNat ≤ 57 then some (c.toNat - 48) else Option.none

/-- Value of a nonempty all-digit string. -/
def parseNatDigits (cs : Str) : Option Nat :=
  if cs.isEmpty then Option.none
  else cs.foldlM (fun acc c => (digitVal? c).map fun d => acc * 10 + d) 0

/-- `date.fromisoformat(s)`: parse the canonical `YYYY-MM-DD` form and
check calendar validity; anything else raises `ValueError`, embedded as
`Except.error`. -/
def Date.fromisoformat (s : Str) : Except Str Date :=
  match s with
  | [y1, y2, y3, y4, dash1, m1, m2, dash2, d1, d2] =>
    if dash1 = '-' ∧ dash2 = '-' then
      match parseNatDigits [y1, y2, y3, y4], parseNatDigits [m1, m2],
          parseNatDigits [d1, d2] with
      | some y, some m, some dd =>
        if (Date.mk y m dd).valid then .ok ⟨y, m, dd⟩
        else .error "day is out of range for month".toList
      | _, _, _ => .error "Invalid isoformat string".toList
    else .error "Invalid isoformat string".toList
  | _ => .error "Invalid isoformat string".toList

/-- An untyped Python payload: the nested mapping/sequence/scalar trees
handled by `validate_context` (a mapping is a key-value list looked up by
first match). -/
inductive PyVal where
  | none : PyVal
  | bool : Bool → PyVal
  | int : Int → PyVal
  | str : Str → PyVal
  | pydate : Date → PyVal
  | list : List PyVal → PyVal
  | dict : List (Str × PyVal) → PyVal
deriving Repr

/-- Char code 123, a left curly bracket. -/
def lbrace : Char := Char.ofNat 123

/-- Char code 125, a right curly bracket. -/
def rbrace : Char := Char.ofNat 125

/-- Join with a comma and space, as in Python container display. -/
def commaJoin : List Str → Str
  | [] => []
  | [s] => s
  | s :: ss => s ++ ',' :: ' ' :: commaJoin ss

/-- Python `repr(v)` (quote escaping inside strings is not modelled; no
claim depends on the display of containers, only `str` on scalars is
load-bearing for the validator). -/
def pyRepr : PyVal → Str
  | .none => "None".toList
  | .bool true => "True".toList
  | .bool false => "False".toList
  | .int n => (toString n).toList
  | .str s => '\'' :: s ++ ['\'']
  | .pydate d =>
      "datetime.date(".toList ++ (toString d.year).toList ++ ", ".toList
        ++ (toString d.month).toList ++ ", ".toList
        ++ (toString d.day).toList ++ [')']
  | .list xs => '[' :: commaJoin (xs.attach.map fun ⟨x, hx⟩ => pyRepr x) ++ [']']
  | .dict fs =>
      lbrace :: commaJoin (fs.attach.map fun ⟨kv, hkv⟩ =>
        ('\'' :: kv.1 ++ ['\'']) ++ ':' :: ' ' :: pyRepr kv.2) ++ [rbrace]
decreasing_by
  · simp_wf
    have := List.sizeOf_lt_of_mem hx
    omega
  · simp_wf
    have := List.sizeOf_lt_of_mem hkv
    cases kv
    simp_all
    omega

/-- Python `str(v)`: identity on strings, `isoformat` display on dates,
`repr`-based display elsewhere. -/
def pyStr (v : PyVal) : Str :=
  match v with
  | .str s => s
  | .pydate d => d.isoformat
  | v => pyRepr v

/-- Python `mapping.get(key, default)` on the embedded dict. -/
def dictGet (fields : List (Str × PyVal)) (key : Str) (default : PyVal) : PyVal :=
  match fields.find? (fun kv => decide (kv.1 = key)) with
  | some kv => kv.2
  | Option.none => default

/-- Python truthiness of a payload (`if not items: ...`). -/
def pyFalsy : PyVal → Bool
  | .none => true
  | .bool b => !b
  | .int n => n == 0
  | .str s => s.isEmpty
  | .pydate _ => false
  | .list xs => xs.isEmpty
  | .dict fs => fs.isEmpty

/-- `schemas.py` dataclass `SpecimenDetail` (post-`__post_init__`). -/
structure SpecimenDetail where
  identifier : Str
  description : Str
  margin_status : Option Str
deriving DecidableEq, Repr

/-- `SpecimenDetail.__init__` + `__post_init__`: normalize the
identifier, reject a whitespace-only identifier, and collapse a
whitespace-only margin status to `None`. -/
def SpecimenDetail.mk? (identifier description : Str) (margin_status : Option Str) :
    Except Str SpecimenDetail :=
  if strip identifier = [] then
    .error "identifier must contain non-whitespace characters".toList
  else
    .ok { identifier := strip identifier, description := description,
          margin_status := margin_status.bind fun m =>
            if strip m = [] then Option.none else some (strip m) }

/-- `SpecimenDetail.to_dict`. -/
def SpecimenDetail.to_dict (s : SpecimenDetail) : PyVal :=
  .dict [("identifier".toList, .str s.identifier),
         ("description".toList, .str s.description),
         ("margin_status".toList,
           match s.margin_status with
           | some m => .str m
           | Option.none => .none)]

/-- `schemas.py` dataclass `PatientContext` (post-`__post_init__`). -/
structure PatientContext where
  patient_id : Str
  clinical_history : Str
  report_date : Date
  specimens : List SpecimenDetail
deriving DecidableEq, Repr

/-- `PatientContext.__init__` + `__post_init__`: reject an empty or
whitespace-only patient id, strip the id and the history. -/
def PatientContext.mk? (patient_id clinical_history : Str) (report_date : Date)
    (specimens : List SpecimenDetail) : Except Str PatientContext :=
  if patient_id = [] ∨ strip patient_id = [] then
    .error "patient_id must contain non-whitespace characters".toList
  else
    .ok { patient_id := strip patient_id, clinical_history := strip clinical_history,
          report_date := report_date, specimens := specimens }

/-- `PatientContext.to_dict`. -/
def PatientContext.to_dict (ctx : PatientContext) : PyVal :=
  .dict [("patient_id".toList, .str ctx.patient_id),
         ("report_date".toList, .str ctx.report_date.isoformat),
         ("clinical_history".toList, .str ctx.clinical_history),
         ("specimens".toList, .list (ctx.specimens.map SpecimenDetail.to_dict))]

/-- One iteration of the loop in `validator._build_specimens`: Python's
`raw.get` raises `AttributeError` on a non-mapping element (the exact
exception text is not modelled, only that an exception is raised). -/
def buildSpecimen (raw : PyVal) : Except Str SpecimenDetail :=
  match raw with
  | .dict fields =>
    SpecimenDetail.mk?
      (pyStr (dictGet fields "identifier".toList (.str [])))
      (pyStr (dictGet fields "description".toList (.str [])))
      (match dictGet fields "margin_status".toList .none with
       | .none => Option.none
       | v => some (pyStr v))
  | _ => .error "AttributeError: object has no attribute get".toList

/-- `validator._build_specimens(items)`: empty/falsy input means no
specimens; iterating a non-list raises (`TypeError`, embedded as an
error); the loop stops at the first failing element. -/
def build_specimens (items : PyVal) : Except Str (List SpecimenDetail) :=
  if pyFalsy items then .ok []
  else
    match items with
    | .list xs => xs.mapM buildSpecimen
    | _ => .error "TypeError: object is not iterable of mappings".toList

/-- `validator._parse_report_date(value)`. -/
def parse_report_date (value : PyVal) : Except Str (Option Date) :=
  match value with
  | .none => .ok Option.none
  | .str [] => .ok Option.none
  | .pydate d => .ok (some d)
  | .str s => (Date.fromisoformat s).map some
  | _ => .error "report_date must be a date or ISO string".toList

/-- The body of the `try` block of `validator.validate_context`: build
the keyword arguments (`str(...)` coercions, specimens, parsed date) and
construct the `PatientContext`; the first modelled exception
short-circuits. The dataclass default `report_date=date.today()` is
injected as the explicit `today` parameter. -/
def validate_body (fields : List (Str × PyVal)) (today : Date) :
    Except Str PatientContext := do
  let specimens ← build_specimens (dictGet fields "specimens".toList .none)
  let parsed ← parse_report_date (dictGet fields "report_date".toList .none)
  PatientContext.mk?
    (pyStr (dictGet fields "patient_id".toList (.str [])))
    (pyStr (dictGet fields "clinical_history".toList (.str [])))
    (parsed.getD today) specimens

/-- `validator.validate_context(payload)`: the boundary function. The
`try`/`except Exception` block is the `Except` match: every modelled
exception becomes an entry of the returned error list, never a raise. -/
def validate_context (payload : PyVal) (today : Date) :
    Bool × Option PatientContext × List Str :=
  match payload with
  | .dict fields =>
    match validate_body fields today with
    | .ok ctx => (true, some ctx, [])
    | .error e => (false, Option.none, [e])
  | _ => (false, Option.none, ["payload must be a dictionary".toList])

/-- A `SpecimenDetail` in canonical (post-construction) form: exactly
the shape `SpecimenDetail.__post_init__` guarantees. -/
def canonicalSpec (s : SpecimenDetail) : Prop :=
  strip s.identifier = s.identifier ∧ s.identifier ≠ [] ∧
    ∀ m, s.margin_status = some m → strip m = m ∧ m ≠ []

/-- A `PatientContext` in canonical (post-construction) form: exactly
the shape `PatientContext.__post_init__` guarantees. -/
def canonicalCtx (r : PatientContext) : Prop :=
  strip r.patient_id = r.patient_id ∧ r.patient_id ≠ [] ∧
    strip r.clinical_history = r.clinical_history ∧
    ∀ s ∈ r.specimens, canonicalSpec s

end Validator

namespace Schemas

/-- `schemas.py` enum `DistanceRelation`. -/
inductive DistanceRelation where
  | exact | less_than | greater_than | not_applicable | cannot_be_determined
deriving DecidableEq, Repr

/-- `schemas.py` model `DistanceMM` (validated). -/
structure DistanceMM where
  relation : DistanceRelation
  mm : Option ℚ
  note : Option Str
deriving DecidableEq, Repr

/-- Pydantic validation of `DistanceMM`: the `Field(ge=0)` bound on `mm`,
then the field validator `_require_mm_for_specific_relations`. -/
def DistanceMM.validate (relation : DistanceRelation) (mm : Option ℚ)
    (note : Option Str) : Except Str DistanceMM :=
  if (match mm with | some v => decide (v < 0) | Option.none => false) then
    .error "Input should be greater than or equal to 0".toList
  else if (relation = .exact ∨ relation = .less_than ∨ relation = .greater_than)
      ∧ mm = Option.none then
    .error "mm must be provided when relation specifies a numeric comparison".toList
  else .ok ⟨relation, mm, note⟩

/-- `schemas.py` enum `MarginStatus`. -/
inductive MarginStatus where
  | negative | positive
deriving DecidableEq, Repr

/-- `schemas.py` enum `MarginFace`. -/
inductive MarginFace where
  | superior | inferior | medial | lateral | anterior | posterior | deep | superficial
deriving DecidableEq, Repr

/-- `schemas.py` model `MarginMeasurement`. -/
structure MarginMeasurement where
  face : MarginFace
  distance : DistanceMM
deriving DecidableEq, Repr

/-- `schemas.py` model `PositiveMarginDetail`. -/
structure PositiveMarginDetail where
  face : MarginFace
  involvement_description : Option Str
deriving DecidableEq, Repr

/-- `schemas.py` model `Margins` (validated). -/
structure Margins where
  status : MarginStatus
  negative_details : List MarginMeasurement
  positive_details : List PositiveMarginDetail
deriving DecidableEq, Repr

/-- Pydantic validation of `Margins`: the field validator
`_validate_negative_details`, then `_validate_positive_details`, in
declaration order. -/
def Margins.validate (status : MarginStatus) (negative_details : List MarginMeasurement)
    (positive_details : List PositiveMarginDetail) : Except Str Margins :=
  if status ≠ .negative ∧ negative_details ≠ [] then
    .error "negative_details must be empty when status is positive".toList
  else if status = .positive ∧ positive_details = [] then
    .error "positive_details must describe the involved margins".toList
  else if status ≠ .positive ∧ positive_details ≠ [] then
    .error "positive_details must be empty when status is negative".toList
  else .ok ⟨status, negative_details, positive_details⟩

/-- `dcis_resection_model.py` union `ClosestMarginDistanceSelection`. -/
inductive ClosestMarginDistanceSelection where
  | exactDistance (millimeters : ℚ)
  | lessThan (millimeters : ℚ)
  | greaterThan (millimeters : ℚ)
  | other (description : Str)
  | cannotDetermine (explanation : Str)
deriving DecidableEq, Repr

/-- Pydantic's discriminated-union parse of
`ClosestMarginDistanceSelection` on the `kind` tag: the tag selects the
variant, whose required field must be present (`none` embeds a missing or
null field and is rejected). -/
def parseClosestMarginDistance (kind : Str) (millimeters : Option ℚ)
    (description explanation : Option Str) :
    Except Str ClosestMarginDistanceSelection :=
  if kind = "Exact distance (350819.100004300)".toList then
    match millimeters with
    | some v => .ok (.exactDistance v)
    | Option.none => .error "millimeters: Field required".toList
  else if kind = "Less than (350822.100004300)".toList then
    match millimeters with
    | some v => .ok (.lessThan v)
    | Option.none => .error "millimeters: Field required".toList
  else if kind = "Greater than (350820.100004300)".toList then
    match millimeters with
    | some v => .ok (.greaterThan v)
    | Option.none => .error "millimeters: Field required".toList
  else if kind = "Other (specify) (350816.100004300)".toList then
    match description with
    | some s => .ok (.other s)
    | Option.none => .error "description: Field required".toList
  else if kind = "Cannot be determined (explain) (350817.100004300)".toList then
    match explanation with
    | some s => .ok (.cannotDetermine s)
    | Option.none => .error "explanation: Field required".toList
  else .error "Input tag does not match any variant".toList

end Schemas

/-! ## Lemmas and claim theorems -/

namespace Crane

/-- Ceiling-division arithmetic behind the window count: peeling one
window off the front. -/
theorem ceil_div_peel (m step : Nat) (hstep : 0 < step) (hm : 0 < m) :
    (m + step - 1) / step = (m - step + step - 1) / step + 1 := by
  rcases le_or_lt m step with hle | hlt
  · have h1 : m - step = 0 := by omega
    rw [h1]
    have h2 : (0 + step - 1) / step = 0 := Nat.div_eq_of_lt (by omega)
    rw [h2]
    exact Nat.div_eq_of_lt_le (by omega) (by omega)
  · have h1 : m - step + step - 1 = m - 1 := by omega
    have h2 : m + step - 1 = (m - 1) + step := by omega
    rw [h1, h2, Nat.add_div_right _ hstep]

/-- Number of windows emitted from cursor position `start`:
`⌈(tokens.length - start) / step⌉`. -/
theorem length_slidingAux (w step : Nat) (tokens : List α) (start : Nat) (hstep : 0 < step) :
    (slidingAux w step tokens start).length = (tokens.length - start + step - 1) / step := by
  rw [slidingAux]
  split
  · next h =>
    rw [if_neg (by omega : ¬ step = 0), List.length_cons,
      length_slidingAux w step tokens (start + step) hstep]
    have h1 : tokens.length - (start + step) = tokens.length - start - step := by omega
    rw [h1, ← ceil_div_peel _ _ hstep (by omega)]
  · next h =>
    have h1 : tokens.length - start = 0 := by omega
    rw [h1]
    exact (Nat.div_eq_of_lt (by omega)).symm
termination_by tokens.length - start
decreasing_by simp_wf; omega

/-- Window `k` (counting from the cursor) is
`tokens[start + k*step : start + k*step + w]`. -/
theorem slidingAux_eq_map_range (w step : Nat) (tokens : List α) (start : Nat)
    (hstep : 0 < step) :
    slidingAux w step tokens start
      = (List.range ((tokens.length - start + step - 1) / step)).map
          (fun k => (tokens.drop (start + k * step)).take w) := by
  rw [slidingAux]
  split
  · next h =>
    rw [if_neg (by omega : ¬ step = 0),
      slidingAux_eq_map_range w step tokens (start + step) hstep]
    have h1 : tokens.length - (start + step) = tokens.length - start - step := by omega
    rw [h1]
    rw [ceil_div_peel (tokens.length - start) step hstep (by omega)]
    rw [List.range_succ_eq_map, List.map_cons, List.map_map]
    refine congrArg₂ _ (by simp) ?_
    refine List.map_congr_left fun k _ => ?_
    simp only [Function.comp_apply]
    have : start + step + k * step = start + (k + 1) * step := by ring
    rw [this]
  · next h =>
    have h1 : tokens.length - start = 0 := by omega
    rw [h1, Nat.div_eq_of_lt (by omega), List.range_zero, List.map_nil]
termination_by tokens.length - start
decreasing_by simp_wf; omega

/-- The window at the cursor is among the emitted windows. -/
theorem head_mem_slidingAux (w step : Nat) (tokens : List α) (start : Nat)
    (h : start < tokens.length) :
    (tokens.drop start).take w ∈ slidingAux w step tokens start := by
  rw [slidingAux, if_pos h]
  exact List.mem_cons_self _ _

/-- Every element of an emitted window is an element of the token list. -/
theorem mem_of_mem_slidingAux (w step : Nat) (tokens : List α) (start : Nat)
    (c : List α) (hc : c ∈ slidingAux w step tokens start) (x : α) (hx : x ∈ c) :
    x ∈ tokens := by
  rw [slidingAux] at hc
  split at hc
  · next h =>
    rcases List.mem_cons.mp hc with rfl | htail
    · exact List.mem_of_mem_drop (List.mem_of_mem_take hx)
    · split at htail
      · cases htail
      · exact mem_of_mem_slidingAux w step tokens (start + step) c htail x hx
  · cases hc
termination_by tokens.length - start
decreasing_by simp_wf; omega

/-- Telescoping sum of window sizes: provided every emitted window holds
at least `o` tokens, the window sizes sum to the tokens that remain past
the cursor plus `o` for every pair of consecutive windows. -/
theorem sum_slidingAux (w step o : Nat) (hw : step + o = w) (hstep : 0 < step)
    (tokens : List α) (start : Nat) (hstart : start < tokens.length)
    (hmin : ∀ c ∈ slidingAux w step tokens start, o ≤ c.length) :
    ((slidingAux w step tokens start).map List.length).sum + o
      = (tokens.length - start) + o * (slidingAux w step tokens start).length := by
  rw [slidingAux, if_pos hstart, if_neg (by omega : ¬ step = 0)] at hmin ⊢
  rw [List.map_cons, List.sum_cons, List.length_cons]
  have hlen0 : ((tokens.drop start).take w).length = min w (tokens.length - start) := by
    rw [List.length_take, List.length_drop]
  by_cases h2 : start + step < tokens.length
  · -- a further window follows; `hmin` forces the current one to be full
    have hfull : w ≤ tokens.length - start := by
      by_contra hns
      have hmem := head_mem_slidingAux w step tokens (start + step) h2
      have hle := hmin _ (List.mem_cons_of_mem _ hmem)
      have : ((tokens.drop (start + step)).take w).length
          = min w (tokens.length - (start + step)) := by
        rw [List.length_take, List.length_drop]
      omega
    have ih := sum_slidingAux w step o hw hstep tokens (start + step) h2
      (fun c hc => hmin c (List.mem_cons_of_mem _ hc))
    rw [Nat.mul_succ]
    set q := o * (slidingAux w step tokens (start + step)).length with hq
    omega
  · -- final window: the remainder of the token list
    have hnil : slidingAux w step tokens (start + step) = [] := by
      rw [slidingAux, if_neg (by omega : ¬ start + step < tokens.length)]
    rw [hnil]
    simp only [List.map_nil, List.sum_nil, List.length_nil]
    have : min w (tokens.length - start) = tokens.length - start := by omega
    omega
termination_by tokens.length - start
decreasing_by simp_wf; omega

/-- `ContextWindow.__init__` acceptance determines the configuration. -/
theorem mk?_ok_inv (window_size overlap : Int) (cw : ContextWindow)
    (h : ContextWindow.mk? window_size overlap = .ok cw) :
    0 < window_size ∧ 0 ≤ overlap ∧ overlap < window_size ∧
      cw.window_size = window_size.toNat ∧ cw.overlap = overlap.toNat := by
  unfold ContextWindow.mk? at h
  by_cases h1 : window_size ≤ 0 <;> by_cases h2 : overlap < 0 <;>
    by_cases h3 : overlap ≥ window_size <;>
    simp [h1, h2, h3] at h <;>
    exact ⟨by omega, by omega, by omega, by rw [← h], by rw [← h]⟩

/-- A validly constructed window configuration has a positive step. -/
theorem mk?_step_pos (window_size overlap : Int) (cw : ContextWindow)
    (h : ContextWindow.mk? window_size overlap = .ok cw) :
    0 < cw.window_size - cw.overlap := by
  obtain ⟨h1, h2, h3, h4, h5⟩ := mk?_ok_inv window_size overlap cw h
  omega

end Crane

section WordLemmas

/-- `takeWhile` keeps a whitespace-free block up to the separating space. -/
theorem takeWhile_nospace_append (cs rest : Str) (h : ∀ c ∈ cs, isSpace c = false) :
    (cs ++ ' ' :: rest).takeWhile (fun d => !isSpace d) = cs := by
  induction cs with
  | nil =>
    rw [List.nil_append, List.takeWhile_cons]
    norm_num [isSpace]
  | cons a as ih =>
    rw [List.cons_append, List.takeWhile_cons, h a (by simp)]
    simpa using ih (fun c hc => h c (by simp [hc]))

/-- `dropWhile` lands exactly on the separating space. -/
theorem dropWhile_nospace_append (cs rest : Str) (h : ∀ c ∈ cs, isSpace c = false) :
    (cs ++ ' ' :: rest).dropWhile (fun d => !isSpace d) = ' ' :: rest := by
  induction cs with
  | nil =>
    rw [List.nil_append, List.dropWhile_cons]
    norm_num [isSpace]
  | cons a as ih =>
    rw [List.cons_append, List.dropWhile_cons, h a (by simp)]
    simpa using ih (fun c hc => h c (by simp [hc]))

/-- Splitting a single whitespace-free nonempty word returns just it. -/
theorem splitWords_single (w : Str) (hne : w ≠ []) (h : ∀ c ∈ w, isSpace c = false) :
    splitWords w = [w] := by
  match w, hne with
  | c :: cs, _ =>
    rw [splitWords, if_neg (by simp [h c (by simp)])]
    rw [List.takeWhile_eq_self_iff.mpr (by intro x hx; simp [h x (by simp [hx])])]
    rw [List.dropWhile_eq_nil_iff.mpr (by intro x hx; simp [h x (by simp [hx])])]
    simp [splitWords]

/-- Every word produced by `splitWords` is nonempty and whitespace-free. -/
theorem splitWords_wf (s : Str) :
    ∀ word ∈ splitWords s, word ≠ [] ∧ ∀ c ∈ word, isSpace c = false := by
  match s with
  | [] => intro word hw; rw [splitWords] at hw; cases hw
  | c :: cs =>
    intro word hw
    rw [splitWords] at hw
    by_cases hc : isSpace c
    · rw [if_pos hc] at hw
      exact splitWords_wf cs word hw
    · rw [if_neg hc] at hw
      rcases List.mem_cons.mp hw with rfl | htail
      · refine ⟨by simp, fun x hx => ?_⟩
        rcases List.mem_cons.mp hx with rfl | hx'
        · simpa using hc
        · simpa using List.mem_takeWhile_imp hx'
      · exact splitWords_wf (cs.dropWhile fun d => !isSpace d) word htail
termination_by s.length
decreasing_by
  · simp_wf
  · simp_wf
    have := (List.dropWhile_sublist (l := cs) (p := fun d => !isSpace d)).length_le
    omega

/-- Re-splitting a space-joined list of nonempty whitespace-free words
recovers exactly those words. -/
theorem splitWords_joinSpace (ws : List Str)
    (h : ∀ w ∈ ws, w ≠ [] ∧ ∀ c ∈ w, isSpace c = false) :
    splitWords (joinSpace ws) = ws := by
  match ws with
  | [] => simp [joinSpace, splitWords]
  | [w] =>
    obtain ⟨hne, hns⟩ := h w (by simp)
    exact splitWords_single w hne hns
  | w :: w' :: ws' =>
    obtain ⟨hne, hns⟩ := h w (by simp)
    match w, hne with
    | c :: cs, _ =>
      have hrest := splitWords_joinSpace (w' :: ws')
        (fun x hx => h x (List.mem_cons_of_mem _ hx))
      have hcs : ∀ x ∈ cs, isSpace x = false := fun x hx => hns x (by simp [hx])
      show splitWords ((c :: cs) ++ ' ' :: joinSpace (w' :: ws')) = _
      rw [List.cons_append, splitWords, if_neg (by simp [hns c (by simp)])]
      rw [takeWhile_nospace_append cs _ hcs, dropWhile_nospace_append cs _ hcs]
      rw [splitWords, if_pos (by norm_num [isSpace])]
      rw [hrest]
termination_by ws.length

end WordLemmas

section StripLemmas

/-- `dropWhile` is idempotent. -/
theorem dropWhile_idem (p : α → Bool) (l : List α) :
    (l.dropWhile p).dropWhile p = l.dropWhile p := by
  induction l with
  | nil => rfl
  | cons a as ih =>
    rw [List.dropWhile_cons]
    by_cases h : p a
    · rw [if_pos h]; exact ih
    · rw [if_neg h, List.dropWhile_cons, if_neg h]

/-- The head surviving `dropWhile` fails the predicate. -/
theorem dropWhile_head_not (p : α → Bool) (l : List α) (c : α) (cs : List α)
    (h : l.dropWhile p = c :: cs) : p c = false := by
  induction l with
  | nil => cases h
  | cons a as ih =>
    rw [List.dropWhile_cons] at h
    by_cases hp : p a
    · rw [if_pos hp] at h; exact ih h
    · rw [if_neg hp] at h
      injection h with h1 h2
      subst h1
      simpa using hp

/-- Keeping a list headed by a predicate-failing element. -/
theorem dropWhile_eq_self_of_head (p : α → Bool) (c : α) (cs : List α)
    (h : p c = false) : (c :: cs).dropWhile p = c :: cs := by
  rw [List.dropWhile_cons, h]
  simp

/-- A nonempty `dropWhile` fixed point is headed by a failing element. -/
theorem head_of_dropWhile_eq_self (p : α → Bool) (c : α) (cs : List α)
    (h : (c :: cs).dropWhile p = c :: cs) : p c = false := by
  rw [List.dropWhile_cons] at h
  by_cases hp : p c
  · rw [if_pos hp] at h
    have h1 := congrArg List.length h
    have h2 := (List.dropWhile_sublist (l := cs) (p := p)).length_le
    simp at h1
    omega
  · simpa using hp

/-- Trimming from the right yields a prefix. -/
theorem reverse_dropWhile_decomp (p : α → Bool) (t : List α) :
    t = (t.reverse.dropWhile p).reverse ++ (t.reverse.takeWhile p).reverse := by
  conv_lhs => rw [← List.reverse_reverse t,
    ← List.takeWhile_append_dropWhile (p := p) (l := t.reverse)]
  rw [List.reverse_append]

/-- Trimming from the right preserves being trimmed on the left. -/
theorem dropWhile_reverse_dropWhile (p : α → Bool) (t : List α)
    (h : t.dropWhile p = t) :
    ((t.reverse.dropWhile p).reverse).dropWhile p = (t.reverse.dropWhile p).reverse := by
  rcases hx : (t.reverse.dropWhile p).reverse with _ | ⟨c, cs⟩
  · rfl
  · have hrest := reverse_dropWhile_decomp p t
    rw [hx, List.cons_append] at hrest
    have hc : p c = false := by
      apply head_of_dropWhile_eq_self p c (cs ++ (t.reverse.takeWhile p).reverse)
      rw [← hrest]
      exact h
    exact dropWhile_eq_self_of_head p c cs hc

/-- `strip` is idempotent (so re-validating already-canonical data
changes nothing). -/
theorem strip_idem (s : Str) : strip (strip s) = strip s := by
  unfold strip
  have h1 : (s.dropWhile isSpace).dropWhile isSpace = s.dropWhile isSpace :=
    dropWhile_idem _ _
  rw [dropWhile_reverse_dropWhile isSpace (s.dropWhile isSpace) h1,
    List.reverse_reverse, dropWhile_idem]

end StripLemmas

namespace Validator

/-- Parsing a rendered digit recovers its value. -/
theorem digitVal?_digitChar (n : Nat) (h : n < 10) :
    digitVal? (Nat.digitChar n) = some n := by
  interval_cases n <;> decide

/-- Every month has at most 31 days. -/
theorem daysInMonth_le (y m : Nat) : daysInMonth y m ≤ 31 := by
  unfold daysInMonth
  split_ifs <;> omega

/-- Parsing four rendered digits recovers the four-digit value. -/
theorem parseNatDigits_four (a b c e : Nat) (ha : a < 10) (hb : b < 10)
    (hc : c < 10) (he : e < 10) :
    parseNatDigits [Nat.digitChar a, Nat.digitChar b, Nat.digitChar c, Nat.digitChar e]
      = some (((a * 10 + b) * 10 + c) * 10 + e) := by
  simp [parseNatDigits, List.foldlM, digitVal?_digitChar, ha, hb, hc, he]

/-- Parsing two rendered digits recovers the two-digit value. -/
theorem parseNatDigits_two (a b : Nat) (ha : a < 10) (hb : b < 10) :
    parseNatDigits [Nat.digitChar a, Nat.digitChar b] = some (a * 10 + b) := by
  simp [parseNatDigits, List.foldlM, digitVal?_digitChar, ha, hb]

/-- `date.fromisoformat(date.isoformat(d)) == d` for calendar-valid
dates: the serializer/parser round trip. -/
theorem fromisoformat_isoformat (d : Date) (h : d.valid) :
    Date.fromisoformat d.isoformat = .ok d := by
  obtain ⟨h1, h2, h3, h4, h5, h6⟩ := h
  have h7 := daysInMonth_le d.year d.month
  simp only [Date.isoformat, isoDigit, Date.fromisoformat]
  rw [parseNatDigits_four _ _ _ _ (Nat.mod_lt _ (by omega)) (Nat.mod_lt _ (by omega))
    (Nat.mod_lt _ (by omega)) (Nat.mod_lt _ (by omega)),
    parseNatDigits_two _ _ (Nat.mod_lt _ (by omega)) (Nat.mod_lt _ (by omega)),
    parseNatDigits_two _ _ (Nat.mod_lt _ (by omega)) (Nat.mod_lt _ (by omega))]
  have hy : ((d.year / 1000 % 10 * 10 + d.year / 100 % 10) * 10 + d.year / 10 % 10) * 10
      + d.year % 10 = d.year := by omega
  have hm : d.month / 10 % 10 * 10 + d.month % 10 = d.month := by omega
  have hd : d.day / 10 % 10 * 10 + d.day % 10 = d.day := by omega
  rw [hy, hm, hd]
  have hval : (Date.mk d.year d.month d.day).valid := ⟨h1, h2, h3, h4, h5, h6⟩
  simp [hval]

/-- `Except` bind on a success. -/
theorem except_bind_ok (a : α) (f : α → Except ε β) :
    (Except.ok a >>= f : Except ε β) = f a := rfl

/-- `Except` bind on a failure. -/
theorem except_bind_error (e : ε) (f : α → Except ε β) :
    ((Except.error e : Except ε α) >>= f) = .error e := rfl

/-- A specimen accepted by `SpecimenDetail.__post_init__` is canonical. -/
theorem specimen_mk?_canonical (idf desc : Str) (ms : Option Str) (s : SpecimenDetail)
    (h : SpecimenDetail.mk? idf desc ms = .ok s) : canonicalSpec s := by
  unfold SpecimenDetail.mk? at h
  split at h
  · cases h
  · next hcond =>
    injection h with h'
    subst h'
    refine ⟨strip_idem idf, hcond, fun m hm => ?_⟩
    cases ms with
    | none => cases hm
    | some m0 =>
      have hm' : (if strip m0 = [] then Option.none else some (strip m0)) = some m := hm
      by_cases h0 : strip m0 = []
      · rw [if_pos h0] at hm'; cases hm'
      · rw [if_neg h0] at hm'
        injection hm' with hh
        subst hh
        exact ⟨strip_idem m0, h0⟩

/-- A context accepted by `PatientContext.__post_init__` has the stated
canonical fields. -/
theorem patient_mk?_ok_inv (pid ch : Str) (rd : Date) (specs : List SpecimenDetail)
    (r : PatientContext) (h : PatientContext.mk? pid ch rd specs = .ok r) :
    r = ⟨strip pid, strip ch, rd, specs⟩ ∧ strip pid ≠ [] := by
  unfold PatientContext.mk? at h
  split at h
  · cases h
  · next hcond =>
    push_neg at hcond
    injection h with h'
    exact ⟨h'.symm, hcond.2⟩

/-- Elements of a successful `mapM` all come from successful calls. -/
theorem mapM_ok_forall (f : α → Except Str β) (xs : List α) (l : List β)
    (h : xs.mapM f = .ok l) (P : β → Prop) (hf : ∀ x y, f x = .ok y → P y) :
    ∀ y ∈ l, P y := by
  induction xs generalizing l with
  | nil =>
    rw [List.mapM_nil] at h
    injection h with h'
    subst h'
    intro y hy
    cases hy
  | cons x xs ih =>
    rw [List.mapM_cons] at h
    cases hx : f x with
    | error e => rw [hx, except_bind_error] at h; cases h
    | ok y =>
      rw [hx, except_bind_ok] at h
      cases hxs : xs.mapM f with
      | error e => rw [hxs, except_bind_error] at h; cases h
      | ok ys =>
        rw [hxs, except_bind_ok] at h
        injection h with h'
        subst h'
        intro z hz
        rcases List.mem_cons.mp hz with rfl | hz'
        · exact hf x z hx
        · exact ih ys hxs z hz'

/-- A specimen produced by the `_build_specimens` loop body is
canonical. -/
theorem buildSpecimen_canonical (raw : PyVal) (s : SpecimenDetail)
    (h : buildSpecimen raw = .ok s) : canonicalSpec s := by
  unfold buildSpecimen at h
  split at h
  · exact specimen_mk?_canonical _ _ _ _ h
  · cases h

/-- Every specimen produced by `_build_specimens` is canonical. -/
theorem build_specimens_canonical (items : PyVal) (l : List SpecimenDetail)
    (h : build_specimens items = .ok l) : ∀ s ∈ l, canonicalSpec s := by
  unfold build_specimens at h
  split at h
  · injection h with h'
    subst h'
    intro s hs
    cases hs
  · split at h
    · exact mapM_ok_forall _ _ _ h _ buildSpecimen_canonical
    · cases h

/-- Anything `validate_body` accepts is canonical. -/
theorem validate_body_canonical (fields : List (Str × PyVal)) (today : Date)
    (r : PatientContext) (h : validate_body fields today = .ok r) :
    canonicalCtx r := by
  unfold validate_body at h
  cases hb : build_specimens (dictGet fields "specimens".toList .none) with
  | error e => rw [hb, except_bind_error] at h; cases h
  | ok specs =>
    rw [hb, except_bind_ok] at h
    cases hp : parse_report_date (dictGet fields "report_date".toList .none) with
    | error e => rw [hp, except_bind_error] at h; cases h
    | ok pd =>
      rw [hp, except_bind_ok] at h
      obtain ⟨hr, hne⟩ := patient_mk?_ok_inv _ _ _ _ _ h
      subst hr
      exact ⟨strip_idem _, hne, strip_idem _, build_specimens_canonical _ _ hb⟩

/-- `validate_context` on a mapping payload, in terms of the try-block. -/
theorem validate_context_dict (fields : List (Str × PyVal)) (today : Date) :
    validate_context (.dict fields) today
      = match validate_body fields today with
        | .ok ctx => (true, some ctx, [])
        | .error e => (false, Option.none, [e]) := rfl

/-- Anything `validate_context` accepts is canonical. -/
theorem validate_context_canonical (payload : PyVal) (today : Date)
    (r : PatientContext) (h : validate_context payload today = (true, some r, [])) :
    canonicalCtx r := by
  cases payload with
  | dict fields =>
    rw [validate_context_dict] at h
    cases hb : validate_body fields today with
    | error e => rw [hb] at h; simp at h
    | ok ctx =>
      rw [hb] at h
      have hctx : ctx = r := by simpa using h
      subst hctx
      exact validate_body_canonical _ _ _ hb
  | none => simp [validate_context] at h
  | bool b => simp [validate_context] at h
  | int n => simp [validate_context] at h
  | str s => simp [validate_context] at h
  | pydate d => simp [validate_context] at h
  | list xs => simp [validate_context] at h

/-- Re-validating a serialized canonical specimen reconstructs it. -/
theorem buildSpecimen_to_dict (s : SpecimenDetail) (hs : canonicalSpec s) :
    buildSpecimen s.to_dict = .ok s := by
  obtain ⟨si, sd, sm⟩ := s
  obtain ⟨hid, hne, hms⟩ := hs
  simp only at hid hne hms
  cases sm with
  | none =>
    have h1 : buildSpecimen (SpecimenDetail.to_dict ⟨si, sd, Option.none⟩)
        = SpecimenDetail.mk? si sd Option.none := rfl
    rw [h1]
    unfold SpecimenDetail.mk?
    rw [if_neg (by rw [hid]; exact hne)]
    simp [hid]
  | some m =>
    have hm := hms m rfl
    have h1 : buildSpecimen (SpecimenDetail.to_dict ⟨si, sd, some m⟩)
        = SpecimenDetail.mk? si sd (some m) := rfl
    rw [h1]
    unfold SpecimenDetail.mk?
    rw [if_neg (by rw [hid]; exact hne)]
    simp [hid, hm.1, hm.2]

/-- Re-validating a serialized list of canonical specimens reconstructs
it. -/
theorem mapM_buildSpecimen_to_dict (l : List SpecimenDetail)
    (h : ∀ s ∈ l, canonicalSpec s) :
    (l.map SpecimenDetail.to_dict).mapM buildSpecimen = .ok l := by
  induction l with
  | nil => rfl
  | cons s ss ih =>
    rw [List.map_cons, List.mapM_cons, buildSpecimen_to_dict s (h s (by simp)),
      except_bind_ok, ih (fun x hx => h x (by simp [hx])), except_bind_ok]
    rfl

/-- `_build_specimens` on a serialized list of canonical specimens. -/
theorem build_specimens_to_dict (l : List SpecimenDetail)
    (h : ∀ s ∈ l, canonicalSpec s) :
    build_specimens (.list (l.map SpecimenDetail.to_dict)) = .ok l := by
  cases l with
  | nil => rfl
  | cons s ss =>
    unfold build_specimens
    rw [if_neg (by simp [pyFalsy])]
    exact mapM_buildSpecimen_to_dict _ h

/-- Re-validating a serialized canonical context succeeds and
reconstructs the same record. -/
theorem validate_context_to_dict (r : PatientContext) (today : Date)
    (hc : canonicalCtx r) (hd : r.report_date.valid) :
    validate_context r.to_dict today = (true, some r, []) := by
  obtain ⟨hid, hne, hch, hspecs⟩ := hc
  have hbody : validate_body
      [("patient_id".toList, .str r.patient_id),
       ("report_date".toList, .str r.report_date.isoformat),
       ("clinical_history".toList, .str r.clinical_history),
       ("specimens".toList, .list (r.specimens.map SpecimenDetail.to_dict))]
      today = .ok r := by
    unfold validate_body
    have e1 : dictGet
        [("patient_id".toList, .str r.patient_id),
         ("report_date".toList, .str r.report_date.isoformat),
         ("clinical_history".toList, .str r.clinical_history),
         ("specimens".toList, .list (r.specimens.map SpecimenDetail.to_dict))]
        "specimens".toList .none = .list (r.specimens.map SpecimenDetail.to_dict) := rfl
    rw [e1, build_specimens_to_dict _ hspecs, except_bind_ok]
    have e2 : dictGet
        [("patient_id".toList, .str r.patient_id),
         ("report_date".toList, .str r.report_date.isoformat),
         ("clinical_history".toList, .str r.clinical_history),
         ("specimens".toList, .list (r.specimens.map SpecimenDetail.to_dict))]
        "report_date".toList .none = .str r.report_date.isoformat := rfl
    rw [e2]
    have e3 : parse_report_date (.str r.report_date.isoformat)
        = (Date.fromisoformat r.report_date.isoformat).map some := rfl
    rw [e3, fromisoformat_isoformat _ hd]
    rw [show ((Except.ok r.report_date : Except Str Date).map some)
        = Except.ok (some r.report_date) from rfl, except_bind_ok]
    have e4 : PatientContext.mk?
        (pyStr (dictGet
          [("patient_id".toList, .str r.patient_id),
           ("report_date".toList, .str r.report_date.isoformat),
           ("clinical_history".toList, .str r.clinical_history),
           ("specimens".toList, .list (r.specimens.map SpecimenDetail.to_dict))]
          "patient_id".toList (.str [])))
        (pyStr (dictGet
          [("patient_id".toList, .str r.patient_id),
           ("report_date".toList, .str r.report_date.isoformat),
           ("clinical_history".toList, .str r.clinical_history),
           ("specimens".toList, .list (r.specimens.map SpecimenDetail.to_dict))]
          "clinical_history".toList (.str [])))
        ((some r.report_date).getD today) r.specimens
        = PatientContext.mk? r.patient_id r.clinical_history r.report_date r.specimens := rfl
    rw [e4]
    unfold PatientContext.mk?
    rw [if_neg (by rw [hid]; simp [hne])]
    rw [hid, hch]
  have : validate_context r.to_dict today
      = (match validate_body
          [("patient_id".toList, .str r.patient_id),
           ("report_date".toList, .str r.report_date.isoformat),
           ("clinical_history".toList, .str r.clinical_history),
           ("specimens".toList, .list (r.specimens.map SpecimenDetail.to_dict))]
          today with
        | .ok ctx => (true, some ctx, [])
        | .error e => (false, Option.none, [e])) := rfl
  rw [this, hbody]

/-- `validate_context` output is always one of the two contract shapes. -/
theorem validate_context_cases (payload : PyVal) (today : Date) :
    (∃ ctx, validate_context payload today = (true, some ctx, [])) ∨
    (∃ e, validate_context payload today = (false, Option.none, [e])) := by
  cases payload with
  | dict fields =>
    rw [validate_context_dict]
    cases hb : validate_body fields today with
    | error e => exact Or.inr ⟨e, rfl⟩
    | ok ctx => exact Or.inl ⟨ctx, rfl⟩
  | none => exact Or.inr ⟨_, rfl⟩
  | bool b => exact Or.inr ⟨_, rfl⟩
  | int n => exact Or.inr ⟨_, rfl⟩
  | str s => exact Or.inr ⟨_, rfl⟩
  | pydate d => exact Or.inr ⟨_, rfl⟩
  | list xs => exact Or.inr ⟨_, rfl⟩

end Validator

/-! ## Claim theorems -/

/-- C1 (amended): for every `ContextWindow` accepted by the constructor
and every text whose whitespace-split token count `n` is positive,
`generate(text)` returns exactly `⌈n / step⌉` windows, where
`step = window_size - overlap`. (The claimed count
`⌈(n - overlap) / step⌉` is refuted by
`c1_claimed_count_counterexample`.) -/
theorem c1_generate_window_count (window_size overlap : Int)
    (cw : Crane.ContextWindow)
    (h : Crane.ContextWindow.mk? window_size overlap = .ok cw) (text : Str)
    (hn : 0 < (splitWords text).length) :
    (cw.generate text).length
      = ((splitWords text).length + (cw.window_size - cw.overlap) - 1)
          / (cw.window_size - cw.overlap) := by
  have hstep := Crane.mk?_step_pos _ _ _ h
  have hne : splitWords text ≠ [] := by
    intro hx
    rw [hx] at hn
    simp at hn
  simp only [Crane.ContextWindow.generate]
  rw [if_neg hne, List.length_map]
  unfold Crane.ContextWindow.slidingSlices
  rw [Crane.length_slidingAux _ _ _ _ hstep]
  simp

/-- Witness for C1: `window_size=3`, `overlap=1`, five tokens give
`⌈5/2⌉ = 3` windows. -/
theorem c1_generate_window_count_witness :
    ((⟨3, 1⟩ : Crane.ContextWindow).generate "a b c d e".toList).length
      = ((splitWords "a b c d e".toList).length + (3 - 1) - 1) / (3 - 1) :=
  c1_generate_window_count 3 1 ⟨3, 1⟩ rfl "a b c d e".toList
    (by simp [splitWords, isSpace])

/-- C1 counterexample: with `window_size=3`, `overlap=1` and the
five-token text `"a b c d e"`, the code emits 3 windows while the
claimed `⌈(n - overlap) / step⌉ = ⌈4/2⌉ = 2`. -/
theorem c1_claimed_count_counterexample :
    Crane.ContextWindow.mk? 3 1 = .ok ⟨3, 1⟩ ∧
    0 < (splitWords "a b c d e".toList).length ∧
    ((⟨3, 1⟩ : Crane.ContextWindow).generate "a b c d e".toList).length
      ≠ ((splitWords "a b c d e".toList).length - 1 + (3 - 1) - 1) / (3 - 1) := by
  refine ⟨rfl, by simp [splitWords, isSpace], ?_⟩
  have h1 : ((⟨3, 1⟩ : Crane.ContextWindow).generate "a b c d e".toList).length = 3 := by
    simp [Crane.ContextWindow.generate, Crane.ContextWindow.slidingSlices,
      Crane.slidingAux, splitWords, isSpace, joinSpace]
  have h2 : (splitWords "a b c d e".toList).length = 5 := by
    simp [splitWords, isSpace]
  rw [h1, h2]
  decide

/-- C2 (amended): for every accepted `ContextWindow` and non-empty
tokenized text, the window token counts telescope back to the total
token count (sum plus `overlap` equals total plus `overlap` times the
window count), provided every emitted window carries at least `overlap`
tokens — equivalently, the final window does; without that proviso the
claim fails (`c2_claimed_sum_counterexample`). -/
theorem c2_token_count_sum (window_size overlap : Int) (cw : Crane.ContextWindow)
    (h : Crane.ContextWindow.mk? window_size overlap = .ok cw) (text : Str)
    (hne : splitWords text ≠ [])
    (hmin : ∀ chunk ∈ cw.slidingSlices (splitWords text), cw.overlap ≤ chunk.length) :
    ((cw.generate text).map (fun win => (splitWords win).length)).sum + cw.overlap
      = (splitWords text).length + cw.overlap * (cw.generate text).length := by
  have hstep := Crane.mk?_step_pos _ _ _ h
  have hinv := Crane.mk?_ok_inv _ _ _ h
  have how : cw.overlap < cw.window_size := by
    obtain ⟨a, b, c, d, e⟩ := hinv
    omega
  simp only [Crane.ContextWindow.generate]
  rw [if_neg hne]
  have hwords : ∀ chunk ∈ cw.slidingSlices (splitWords text),
      splitWords (joinSpace chunk) = chunk := by
    intro chunk hchunk
    apply splitWords_joinSpace
    intro w hw
    exact splitWords_wf text w (Crane.mem_of_mem_slidingAux _ _ _ _ _ hchunk _ hw)
  have hmap : (cw.slidingSlices (splitWords text)).map
        ((fun win => (splitWords win).length) ∘ joinSpace)
      = (cw.slidingSlices (splitWords text)).map List.length :=
    List.map_congr_left (fun chunk hchunk => by
      simp [Function.comp, hwords chunk hchunk])
  rw [List.map_map, hmap, List.length_map]
  have h0 : 0 < (splitWords text).length := List.length_pos.mpr hne
  unfold Crane.ContextWindow.slidingSlices at hmin ⊢
  have := Crane.sum_slidingAux cw.window_size (cw.window_size - cw.overlap) cw.overlap
    (by omega) hstep (splitWords text) 0 (by omega) hmin
  simpa using this

/-- Witness for C2: `window_size=3`, `overlap=1`, six tokens: window
counts 3+3+2 = 8 and 8 + 1 = 6 + 1·3. -/
theorem c2_token_count_sum_witness :
    (((⟨3, 1⟩ : Crane.ContextWindow).generate "a b c d e f".toList).map
        (fun win => (splitWords win).length)).sum + 1
      = (splitWords "a b c d e f".toList).length
          + 1 * ((⟨3, 1⟩ : Crane.ContextWindow).generate "a b c d e f".toList).length :=
  c2_token_count_sum 3 1 ⟨3, 1⟩ rfl "a b c d e f".toList
    (by simp [splitWords, isSpace])
    (by simp [Crane.ContextWindow.slidingSlices, Crane.slidingAux, splitWords, isSpace])

/-- C2 counterexample: with `window_size=5`, `overlap=3` and seven
tokens, the window token counts are 5,5,3,1 (sum 14) over 4 windows, and
`14 - 3·(4-1) = 5 ≠ 7`: the final windows overlap by less than
`overlap`, so the claimed identity fails. -/
theorem c2_claimed_sum_counterexample :
    Crane.ContextWindow.mk? 5 3 = .ok ⟨5, 3⟩ ∧
    splitWords "a b c d e f g".toList ≠ [] ∧
    (((⟨5, 3⟩ : Crane.ContextWindow).generate "a b c d e f g".toList).map
        (fun win => (splitWords win).length)).sum
        - 3 * (((⟨5, 3⟩ : Crane.ContextWindow).generate "a b c d e f g".toList).length - 1)
      ≠ (splitWords "a b c d e f g".toList).length := by
  refine ⟨rfl, by simp [splitWords, isSpace], ?_⟩
  have h1 : (⟨5, 3⟩ : Crane.ContextWindow).generate "a b c d e f g".toList
      = ["a b c d e".toList, "c d e f g".toList, "e f g".toList, ['g']] := by
    simp [Crane.ContextWindow.generate, Crane.ContextWindow.slidingSlices,
      Crane.slidingAux, splitWords, isSpace, joinSpace]
  rw [h1]
  simp [splitWords, isSpace]

/-- C7: construction succeeds exactly when `0 ≤ overlap < window_size`
(so `window_size > 0`), and raises a configuration error exactly when
`window_size ≤ 0`, `overlap < 0`, or `overlap ≥ window_size` — at
construction time. (For accepted parameters, `generate` is embedded as a
total Lean function, so generation itself cannot raise.) -/
theorem c7_construction_ok_iff (window_size overlap : Int) :
    ((∃ cw, Crane.ContextWindow.mk? window_size overlap = .ok cw) ↔
      0 < window_size ∧ 0 ≤ overlap ∧ overlap < window_size) ∧
    ((∃ e, Crane.ContextWindow.mk? window_size overlap = .error e) ↔
      window_size ≤ 0 ∨ overlap < 0 ∨ window_size ≤ overlap) := by
  constructor
  · constructor
    · rintro ⟨cw, hcw⟩
      obtain ⟨h1, h2, h3, -, -⟩ := Crane.mk?_ok_inv _ _ _ hcw
      exact ⟨h1, h2, h3⟩
    · rintro ⟨h1, h2, h3⟩
      refine ⟨⟨window_size.toNat, overlap.toNat⟩, ?_⟩
      unfold Crane.ContextWindow.mk?
      rw [if_neg (by omega), if_neg (by omega), if_neg (by omega)]
  · constructor
    · rintro ⟨e, he⟩
      by_contra hnot
      push_neg at hnot
      unfold Crane.ContextWindow.mk? at he
      rw [if_neg (by omega), if_neg (by omega), if_neg (by omega)] at he
      cases he
    · intro hor
      unfold Crane.ContextWindow.mk?
      by_cases h1 : window_size ≤ 0
      · rw [if_pos h1]
        exact ⟨_, rfl⟩
      · by_cases h2 : overlap < 0
        · rw [if_neg h1, if_pos h2]
          exact ⟨_, rfl⟩
        · have h3 : overlap ≥ window_size := by omega
          rw [if_neg h1, if_neg h2, if_pos h3]
          exact ⟨_, rfl⟩

/-- C8: for every window configuration, `generate` on the empty string
and on an all-whitespace string returns the empty sequence (and, being a
total function, does not raise). -/
theorem c8_generate_empty_and_whitespace (cw : Crane.ContextWindow) :
    cw.generate "".toList = [] ∧ cw.generate "   ".toList = [] := by
  constructor
  · simp [Crane.ContextWindow.generate, splitWords]
  · simp [Crane.ContextWindow.generate, splitWords, isSpace]

/-- C9: for every accepted configuration, the emitted windows are
exactly `tokens[k·step : k·step + window_size]` for
`k = 0, 1, …, ⌈n/step⌉ - 1` — the first starts at index 0 and
consecutive starts differ by `step` — and every token occurs in at least
one emitted window. -/
theorem c9_windows_cover (window_size overlap : Int) (cw : Crane.ContextWindow)
    (h : Crane.ContextWindow.mk? window_size overlap = .ok cw) (tokens : List Str) :
    cw.slidingSlices tokens
      = (List.range ((tokens.length + (cw.window_size - cw.overlap) - 1)
            / (cw.window_size - cw.overlap))).map
          (fun k => (tokens.drop (k * (cw.window_size - cw.overlap))).take cw.window_size)
    ∧ ∀ j (hj : j < tokens.length), ∃ k,
        k * (cw.window_size - cw.overlap) ≤ j ∧
        j < k * (cw.window_size - cw.overlap) + cw.window_size ∧
        ∃ chunk ∈ cw.slidingSlices tokens, tokens.get ⟨j, hj⟩ ∈ chunk := by
  have hstep := Crane.mk?_step_pos _ _ _ h
  have hchar : cw.slidingSlices tokens
      = (List.range ((tokens.length + (cw.window_size - cw.overlap) - 1)
            / (cw.window_size - cw.overlap))).map
          (fun k => (tokens.drop (k * (cw.window_size - cw.overlap))).take cw.window_size) := by
    unfold Crane.ContextWindow.slidingSlices
    rw [Crane.slidingAux_eq_map_range _ _ _ _ hstep]
    simp
  refine ⟨hchar, ?_⟩
  intro j hj
  have hsw : cw.window_size - cw.overlap ≤ cw.window_size := Nat.sub_le _ _
  have hdm := Nat.div_add_mod j (cw.window_size - cw.overlap)
  have hmod : j % (cw.window_size - cw.overlap) < cw.window_size - cw.overlap :=
    Nat.mod_lt _ hstep
  have hcomm : (cw.window_size - cw.overlap) * (j / (cw.window_size - cw.overlap))
      = (j / (cw.window_size - cw.overlap)) * (cw.window_size - cw.overlap) :=
    Nat.mul_comm _ _
  rw [hcomm] at hdm
  set p := (j / (cw.window_size - cw.overlap)) * (cw.window_size - cw.overlap) with hp
  have hub : j < p + cw.window_size := by omega
  have hlb : p ≤ j := by omega
  refine ⟨j / (cw.window_size - cw.overlap), hlb, hub, ?_⟩
  have hk : j / (cw.window_size - cw.overlap)
      < (tokens.length + (cw.window_size - cw.overlap) - 1)
          / (cw.window_size - cw.overlap) := by
    have hlt : p < tokens.length := by omega
    have hgoal : j / (cw.window_size - cw.overlap) + 1
        ≤ (tokens.length + (cw.window_size - cw.overlap) - 1)
            / (cw.window_size - cw.overlap) := by
      rw [Nat.le_div_iff_mul_le hstep]
      have hmul : (j / (cw.window_size - cw.overlap) + 1) * (cw.window_size - cw.overlap)
          = p + (cw.window_size - cw.overlap) := by
        rw [hp]
        ring
      omega
    omega
  refine ⟨(tokens.drop p).take cw.window_size, ?_, ?_⟩
  · rw [hchar]
    exact List.mem_map_of_mem _ (List.mem_range.mpr hk)
  · have hb : j - p < ((tokens.drop p).take cw.window_size).length := by
      rw [List.length_take, List.length_drop]
      omega
    have he : ((tokens.drop p).take cw.window_size).get ⟨j - p, hb⟩
        = tokens.get ⟨j, hj⟩ := by
      simp only [List.get_eq_getElem, List.getElem_take, List.getElem_drop]
      congr 1
      omega
    rw [← he]
    exact List.get_mem _ _ _

/-- Witness for C9: `window_size=3`, `overlap=1` on three tokens. -/
theorem c9_windows_cover_witness :
    ((⟨3, 1⟩ : Crane.ContextWindow).slidingSlices ["a".toList, "b".toList, "c".toList]
      = (List.range ((3 + (3 - 1) - 1) / (3 - 1))).map
          (fun k => ((["a".toList, "b".toList, "c".toList] : List Str).drop (k * (3 - 1))).take 3))
    ∧ ∀ j (hj : j < (["a".toList, "b".toList, "c".toList] : List Str).length), ∃ k,
        k * (3 - 1) ≤ j ∧ j < k * (3 - 1) + 3 ∧
        ∃ chunk ∈ (⟨3, 1⟩ : Crane.ContextWindow).slidingSlices
            ["a".toList, "b".toList, "c".toList],
          (["a".toList, "b".toList, "c".toList] : List Str).get ⟨j, hj⟩ ∈ chunk :=
  c9_windows_cover 3 1 ⟨3, 1⟩ rfl ["a".toList, "b".toList, "c".toList]

/-- C3: any payload `validate_context` accepts yields a record that,
serialized by `to_dict` and validated again, is accepted and
re-serializes to the identical structure. (The record's date is
calendar-valid — automatic for Python `date` objects — stated as the
hypothesis `hdate`.) -/
theorem c3_validate_roundtrip (payload : Validator.PyVal) (today : Validator.Date)
    (r : Validator.PatientContext)
    (h : Validator.validate_context payload today = (true, some r, []))
    (hdate : r.report_date.valid) :
    ∃ r2, Validator.validate_context r.to_dict today = (true, some r2, []) ∧
      r2.to_dict = r.to_dict :=
  ⟨r, Validator.validate_context_to_dict r today
        (Validator.validate_context_canonical payload today r h) hdate, rfl⟩

/-- Witness for C3: a minimal valid payload round-trips. -/
theorem c3_validate_roundtrip_witness :
    Validator.validate_context
        (.dict [("patient_id".toList, .str "123".toList),
                ("clinical_history".toList, .str "History".toList)])
        ⟨2024, 1, 2⟩
      = (true, some ⟨"123".toList, "History".toList, ⟨2024, 1, 2⟩, []⟩, []) ∧
    ∃ r2, Validator.validate_context
        (Validator.PatientContext.to_dict
          ⟨"123".toList, "History".toList, ⟨2024, 1, 2⟩, []⟩) ⟨2024, 1, 2⟩
      = (true, some r2, []) ∧
      r2.to_dict = Validator.PatientContext.to_dict
        ⟨"123".toList, "History".toList, ⟨2024, 1, 2⟩, []⟩ :=
  ⟨rfl, c3_validate_roundtrip
    (.dict [("patient_id".toList, .str "123".toList),
            ("clinical_history".toList, .str "History".toList)])
    ⟨2024, 1, 2⟩ ⟨"123".toList, "History".toList, ⟨2024, 1, 2⟩, []⟩ rfl (by decide)⟩

/-- C4: `validate_context` never raises (it is a total function in the
embedding, every modelled exception being converted at the boundary);
when it reports success the record is present and the error list empty,
and when it reports failure the record is `None` and the error list
non-empty. -/
theorem c4_boundary_contract (payload : Validator.PyVal) (today : Validator.Date) :
    ((Validator.validate_context payload today).1 = true →
      ∃ ctx, Validator.validate_context payload today = (true, some ctx, [])) ∧
    ((Validator.validate_context payload today).1 = false →
      (Validator.validate_context payload today).2.1 = Option.none ∧
        (Validator.validate_context payload today).2.2 ≠ []) := by
  rcases Validator.validate_context_cases payload today with ⟨ctx, hh⟩ | ⟨e, hh⟩
  · constructor
    · intro _
      exact ⟨ctx, hh⟩
    · intro hfalse
      rw [hh] at hfalse
      simp at hfalse
  · constructor
    · intro htrue
      rw [hh] at htrue
      simp at htrue
    · intro _
      rw [hh]
      exact ⟨rfl, by simp⟩

/-- Witness for C4: a non-mapping payload fails with a null record and
a non-empty error list. -/
theorem c4_boundary_contract_witness :
    (Validator.validate_context (.int 0) ⟨2024, 1, 2⟩).2.1 = Option.none ∧
    (Validator.validate_context (.int 0) ⟨2024, 1, 2⟩).2.2 ≠ [] :=
  (c4_boundary_contract (.int 0) ⟨2024, 1, 2⟩).2 rfl

/-- C10: every failure of `validate_context` carries exactly one error
message (the boundary is fail-fast). -/
theorem c10_single_error (payload : Validator.PyVal) (today : Validator.Date)
    (h : (Validator.validate_context payload today).1 = false) :
    (Validator.validate_context payload today).2.2.length = 1 := by
  rcases Validator.validate_context_cases payload today with ⟨ctx, hh⟩ | ⟨e, hh⟩
  · rw [hh] at h
    simp at h
  · rw [hh]
    rfl

/-- Witness for C10: the non-mapping failure has exactly one message. -/
theorem c10_single_error_witness :
    (Validator.validate_context (.str "oops".toList) ⟨2024, 1, 2⟩).2.2.length = 1 :=
  c10_single_error (.str "oops".toList) ⟨2024, 1, 2⟩ rfl

/-- C5: a margin assessment with `status=negative` and a non-empty
`positive_details` collection is rejected, and one with
`status=positive` and an empty `positive_details` collection is also
rejected. -/
theorem c5_margins_status_details_exclusivity :
    (∀ (neg : List Schemas.MarginMeasurement) (p : Schemas.PositiveMarginDetail)
        (ps : List Schemas.PositiveMarginDetail),
      ∃ e, Schemas.Margins.validate .negative neg (p :: ps) = .error e) ∧
    (∀ neg : List Schemas.MarginMeasurement,
      ∃ e, Schemas.Margins.validate .positive neg [] = .error e) := by
  constructor
  · intro neg p ps
    refine ⟨"positive_details must be empty when status is negative".toList, ?_⟩
    unfold Schemas.Margins.validate
    rw [if_neg (by simp), if_neg (by simp), if_pos (by simp)]
  · intro neg
    by_cases hn : neg = []
    · subst hn
      refine ⟨"positive_details must describe the involved margins".toList, ?_⟩
      unfold Schemas.Margins.validate
      rw [if_neg (by simp), if_pos (by simp)]
    · refine ⟨"negative_details must be empty when status is positive".toList, ?_⟩
      unfold Schemas.Margins.validate
      rw [if_pos (by simp [hn])]

/-- C6: selecting a numeric distance relation (`exact`, `less_than`,
`greater_than` in `DistanceMM`, and the tags `Exact distance` /
`Less than` / `Greater than` of the discriminated union) with a
null/absent `mm`/`millimeters` value is rejected. -/
theorem c6_numeric_distance_requires_mm :
    (∀ note, ∃ e, Schemas.DistanceMM.validate .exact Option.none note = .error e) ∧
    (∀ note, ∃ e, Schemas.DistanceMM.validate .less_than Option.none note = .error e) ∧
    (∀ note, ∃ e, Schemas.DistanceMM.validate .greater_than Option.none note = .error e) ∧
    (∀ d ex, ∃ e, Schemas.parseClosestMarginDistance
        "Exact distance (350819.100004300)".toList Option.none d ex = .error e) ∧
    (∀ d ex, ∃ e, Schemas.parseClosestMarginDistance
        "Less than (350822.100004300)".toList Option.none d ex = .error e) ∧
    (∀ d ex, ∃ e, Schemas.parseClosestMarginDistance
        "Greater than (350820.100004300)".toList Option.none d ex = .error e) := by
  refine
    ⟨fun note => ⟨"mm must be provided when relation specifies a numeric comparison".toList, ?_⟩,
     fun note => ⟨"mm must be provided when relation specifies a numeric comparison".toList, ?_⟩,
     fun note => ⟨"mm must be provided when relation specifies a numeric comparison".toList, ?_⟩,
     fun d ex => ⟨"millimeters: Field required".toList, ?_⟩,
     fun d ex => ⟨"millimeters: Field required".toList, ?_⟩,
     fun d ex => ⟨"millimeters: Field required".toList, ?_⟩⟩
  · unfold Schemas.DistanceMM.validate
    rw [if_neg (by simp), if_pos (by simp)]
  · unfold Schemas.DistanceMM.validate
    rw [if_neg (by simp), if_pos (by simp)]
  · unfold Schemas.DistanceMM.validate
    rw [if_neg (by simp), if_pos (by simp)]
  · unfold Schemas.parseClosestMarginDistance
    rw [if_pos rfl]
  · unfold Schemas.parseClosestMarginDistance
    rw [if_neg (by decide), if_pos rfl]
  · unfold Schemas.parseClosestMarginDistance
    rw [if_neg (by decide), if_neg (by decide), if_pos rfl]
